import Mathlib

/-!
Shallow embedding of the DhanSaathi debt-management calculation engine
(`financial-calculations` utilities: `calculateMonthlyRate`,
`calculateSnowballStrategy`, `calculateAvalancheStrategy`,
`calculateHybridStrategy`, `calculateDebtStrategy`, `calculateDebtMetrics`,
`validateDebts`) together with the type definitions (`Debt`,
`PaymentBreakdown`, `RepaymentStrategy`, `DebtAnalysis`).

Numbers are modelled by ℚ (the source performs exact-looking arithmetic on
JS numbers; every property below is about the structure of the computation,
not about rounding).  Fallible code (`throw new Error`) is modelled by
`Except String`.  The in-place mutation of the simulation's debt copies is
modelled twice: a pure state-passing version (`calculateDebtStrategy`) used
for the functional claims, and an explicit-heap version (`Heap`,
`calculateDebtStrategyH`) used for the frame/no-mutation claim, where JS
object references are addresses into a heap and `{...debt}` allocates.
-/

/- `Rat`'s arithmetic is `@[irreducible]` in Batteries, which blocks
`decide`'s evaluation of concrete simulations; the operations are perfectly
computable, so restore the default transparency for them. -/
set_option allowUnsafeReducibility true in
attribute [semireducible] Rat.add Rat.mul Rat.sub Rat.inv Rat.ofScientific

namespace DhanSaathi

/-- `Debt` interface from the type definitions: id, name, balance,
annual interest rate (percent), minimum monthly payment, due day of month,
category tag. -/
structure Debt where
  id : String
  name : String
  balance : ℚ
  interestRate : ℚ
  minimumPayment : ℚ
  dueDate : Nat
  debtType : String
  deriving DecidableEq, Repr

/-- Helper to build a concrete debt from the fields the engine reads. -/
def mkDebt (id : String) (balance interestRate minimumPayment : ℚ) : Debt :=
  { id := id, name := id, balance := balance, interestRate := interestRate,
    minimumPayment := minimumPayment, dueDate := 1, debtType := "other" }

/-- `PaymentBreakdown` interface: one simulated month's aggregate record. -/
structure PaymentBreakdown where
  month : Nat
  principal : ℚ
  interest : ℚ
  balance : ℚ
  totalPayment : ℚ
  deriving DecidableEq, Repr

/-- `RepaymentStrategy` string union type. -/
inductive RepaymentStrategy where
  | snowball
  | avalanche
  | hybrid
  deriving DecidableEq, Repr

/-- `DebtAnalysis` interface: the result of a strategy computation. -/
structure DebtAnalysis where
  strategy : RepaymentStrategy
  totalInterest : ℚ
  payoffTimeMonths : Nat
  monthlyPayment : ℚ
  paymentSchedule : List PaymentBreakdown
  debtOrder : List String
  deriving DecidableEq, Repr

/-- `calculateMonthlyRate`: annual percentage rate to monthly decimal rate. -/
def calculateMonthlyRate (annualRate : ℚ) : ℚ :=
  annualRate / 100 / 12

/-- The body of the `for` loop inside `calculateDebtStrategy`, one simulated
month over the (already prioritised) debt list.  `i` is the array index of
the head debt, `extraPayment` the current value of the mutable
`extraPayment` variable, `debtOrder` the payoff order accumulated so far.
Returns the updated debts, the month's accumulated interest and principal,
and the updated payoff order.  A debt with balance ≤ 0.01 is skipped
(`continue`); the extra payment is added only when `extraPayment > 0 && i
=== 0`; principal is `min(payment - interest, balance)`; the first time a
debt's balance falls to ≤ 0.01 its id is pushed on `debtOrder` (if not
already present) and its balance clamped to 0. -/
def processDebtsMonth : List Debt → Nat → ℚ → List String →
    List Debt × ℚ × ℚ × List String
  | [], _, _, debtOrder => ([], 0, 0, debtOrder)
  | debt :: rest, i, extraPayment, debtOrder =>
    if debt.balance ≤ 1/100 then
      let (rest', mi, mp, orderF) := processDebtsMonth rest (i+1) extraPayment debtOrder
      (debt :: rest', mi, mp, orderF)
    else
      let monthlyRate := calculateMonthlyRate debt.interestRate
      let interestPayment := debt.balance * monthlyRate
      let payment :=
        if extraPayment > 0 ∧ i = 0 then debt.minimumPayment + extraPayment
        else debt.minimumPayment
      let extraPayment' := if extraPayment > 0 ∧ i = 0 then 0 else extraPayment
      let principalPayment := min (payment - interestPayment) debt.balance
      let newBalance := debt.balance - principalPayment
      let paidOff : Prop := newBalance ≤ 1/100 ∧ debt.id ∉ debtOrder
      let balance' := if paidOff then 0 else newBalance
      let debtOrder' := if paidOff then debtOrder ++ [debt.id] else debtOrder
      let (rest', mi, mp, orderF) := processDebtsMonth rest (i+1) extraPayment' debtOrder'
      ({ debt with balance := balance' } :: rest',
        interestPayment + mi, principalPayment + mp, orderF)

/-- The `while` loop of `calculateDebtStrategy`.  `fuel` is the number of
months the `month <= 600` guard still allows; the loop also stops once no
debt has balance > 0.01.  Returns the schedule produced from this month on
(records in month order), the final debt states, the final payoff order,
the accumulated total interest and the final value of `month`. -/
def simulateMonths : Nat → List Debt → ℚ → ℚ → List String → ℚ → Nat →
    List PaymentBreakdown × List Debt × List String × ℚ × Nat
  | 0, debtCopies, _, _, debtOrder, totalInterest, month =>
    ([], debtCopies, debtOrder, totalInterest, month)
  | fuel+1, debtCopies, availablePayment, totalMinimums, debtOrder, totalInterest, month =>
    if debtCopies.any (fun d => decide (d.balance > 1/100)) then
      let extraPayment := availablePayment - totalMinimums
      let (debtCopies', monthlyInterest, monthlyPrincipal, debtOrder') :=
        processDebtsMonth debtCopies 0 extraPayment debtOrder
      let record : PaymentBreakdown :=
        { month := month, principal := monthlyPrincipal, interest := monthlyInterest,
          balance := debtCopies'.foldl (fun s d => s + d.balance) 0,
          totalPayment := monthlyPrincipal + monthlyInterest }
      let (restSchedule, finalDebts, finalOrder, finalInterest, finalMonth) :=
        simulateMonths fuel debtCopies' availablePayment totalMinimums debtOrder'
          (totalInterest + monthlyInterest) (month+1)
      (record :: restSchedule, finalDebts, finalOrder, finalInterest, finalMonth)
    else
      ([], debtCopies, debtOrder, totalInterest, month)

/-- `calculateDebtStrategy`: the core engine.  The `{...debt}` copy of each
debt is the identity on values in this pure model (the aliasing content of
the copy is modelled by the heap embedding below).  Throws when the sum of
minimum payments exceeds the available payment. -/
def calculateDebtStrategy (sortedDebts : List Debt) (availablePayment : ℚ)
    (strategy : RepaymentStrategy) : Except String DebtAnalysis :=
  let debtCopies := sortedDebts
  let totalMinimums := debtCopies.foldl (fun s d => s + d.minimumPayment) 0
  if totalMinimums > availablePayment then
    .error "Available payment is less than total minimum payments required"
  else
    let (paymentSchedule, _finalDebts, debtOrder, totalInterest, month) :=
      simulateMonths 600 debtCopies availablePayment totalMinimums [] 0 1
    .ok { strategy := strategy, totalInterest := totalInterest,
          payoffTimeMonths := month - 1, monthlyPayment := availablePayment,
          paymentSchedule := paymentSchedule, debtOrder := debtOrder }

/-- The ordering used by `calculateSnowballStrategy`:
`[...debts].sort((a, b) => a.balance - b.balance)` — a stable ascending sort
by balance (modelled by `List.insertionSort`, which is stable). -/
def snowballOrder (debts : List Debt) : List Debt :=
  List.insertionSort (fun a b => a.balance ≤ b.balance) debts

/-- `calculateSnowballStrategy`: smallest balance first. -/
def calculateSnowballStrategy (debts : List Debt) (availablePayment : ℚ) :
    Except String DebtAnalysis :=
  calculateDebtStrategy (snowballOrder debts) availablePayment .snowball

/-- The ordering used by `calculateAvalancheStrategy`:
`[...debts].sort((a, b) => b.interestRate - a.interestRate)` — a stable
descending sort by interest rate. -/
def avalancheOrder (debts : List Debt) : List Debt :=
  List.insertionSort (fun a b => b.interestRate ≤ a.interestRate) debts

/-- `calculateAvalancheStrategy`: highest interest rate first. -/
def calculateAvalancheStrategy (debts : List Debt) (availablePayment : ℚ) :
    Except String DebtAnalysis :=
  calculateDebtStrategy (avalancheOrder debts) availablePayment .avalanche

/-- The hybrid score `(debt.balance / 10000) * 0.4 + debt.interestRate * 0.6`
attached by `calculateHybridStrategy` to each debt. -/
def hybridScore (debt : Debt) : ℚ :=
  (debt.balance / 10000) * (4/10) + debt.interestRate * (6/10)

/-- The ordering used by `calculateHybridStrategy`: debts sorted ascending
by hybrid score.  The source attaches a transient `hybridScore` field to a
copy of each debt and sorts by it; the field is never read again, so the
ordering is modelled as a stable sort on the computed score. -/
def hybridOrder (debts : List Debt) : List Debt :=
  List.insertionSort (fun a b => hybridScore a ≤ hybridScore b) debts

/-- `calculateHybridStrategy`: lowest blended score first. -/
def calculateHybridStrategy (debts : List Debt) (availablePayment : ℚ) :
    Except String DebtAnalysis :=
  calculateDebtStrategy (hybridOrder debts) availablePayment .hybrid

/-- Schedule of a strategy result; `[]` for the error case. -/
def resultSchedule : Except String DebtAnalysis → List PaymentBreakdown
  | .ok r => r.paymentSchedule
  | .error _ => []

/-- Whether an engine call failed (threw). -/
def isError : Except String DebtAnalysis → Bool
  | .ok _ => false
  | .error _ => true

/-- The final debt states of the simulation inside `calculateDebtStrategy`
(the `debtCopies` array after the `while` loop; computed but not returned
by the source). -/
def simulationFinalDebts (sortedDebts : List Debt) (availablePayment : ℚ) : List Debt :=
  (simulateMonths 600 sortedDebts availablePayment
    (sortedDebts.foldl (fun s d => s + d.minimumPayment) 0) [] 0 1).2.1

/-- The simulation's state after the first `k` months of
`calculateDebtStrategy`'s loop: the debt states and the payoff order once
`month` has advanced `k` times (or the loop has stopped earlier, after
which the state no longer changes).  The loop body is deterministic, so
iterating it with fuel `k` is exactly the first `k` months of the fuel-600
run. -/
def simulationStateAfter (sortedDebts : List Debt) (availablePayment : ℚ) (k : Nat) :
    List Debt × List String :=
  let s := simulateMonths k sortedDebts availablePayment
    (sortedDebts.foldl (fun s d => s + d.minimumPayment) 0) [] 0 1
  (s.2.1, s.2.2.1)

/-- `true` iff the list is non-increasing from each element to the next. -/
def nonincQ : List ℚ → Bool
  | [] => true
  | [_] => true
  | a :: b :: rest => decide (b ≤ a) && nonincQ (b :: rest)

/-! ### Validation (`validateDebts`) -/

/-- The error strings pushed for one debt by the `forEach` body of
`validateDebts` (`index` is the 0-based array index; messages use
`index + 1`). -/
def validateDebtErrors (debt : Debt) (index : Nat) : List String :=
  (if debt.balance ≤ 0 then
    ["Debt " ++ toString (index + 1) ++ ": Balance must be greater than 0"] else []) ++
  (if debt.interestRate < 0 ∨ debt.interestRate > 50 then
    ["Debt " ++ toString (index + 1) ++ ": Interest rate must be between 0% and 50%"] else []) ++
  (if debt.minimumPayment ≤ 0 then
    ["Debt " ++ toString (index + 1) ++ ": Minimum payment must be greater than 0"] else []) ++
  (if debt.minimumPayment ≤ debt.balance * calculateMonthlyRate debt.interestRate then
    ["Debt " ++ toString (index + 1) ++ ": Minimum payment is too low to cover interest"] else [])

/-- The `forEach` traversal of `validateDebts`, with the running index. -/
def validateDebtsAux : List Debt → Nat → List String
  | [], _ => []
  | debt :: rest, index => validateDebtErrors debt index ++ validateDebtsAux rest (index + 1)

/-- `validateDebts`: collects human-readable problems; never throws. -/
def validateDebts (debts : List Debt) : List String :=
  validateDebtsAux debts 0

/-! ### Metrics (`calculateDebtMetrics`)

The metrics function divides by the total balance and by the monthly
income without any guard; in JS this cannot throw, it produces `Infinity`
or `NaN`.  To state claims about that behaviour the arithmetic is carried
out in `JsNum`, JS numbers restricted to exact finite values plus the
special values `Infinity`, `-Infinity` and `NaN`, with the IEEE-754 rules
for those specials (ℚ has no signed zero; every zero divisor reaching
these operations in the source is JS `+0`). -/

/-- A JS number: an exact finite value or one of the special values. -/
inductive JsNum where
  | num : ℚ → JsNum
  | posInf
  | negInf
  | nan
  deriving DecidableEq, Repr

/-- JS addition on `JsNum`. -/
def jsAdd : JsNum → JsNum → JsNum
  | .num a, .num b => .num (a + b)
  | .nan, _ => .nan
  | _, .nan => .nan
  | .posInf, .negInf => .nan
  | .negInf, .posInf => .nan
  | .posInf, _ => .posInf
  | _, .posInf => .posInf
  | .negInf, _ => .negInf
  | _, .negInf => .negInf

/-- JS multiplication on `JsNum`. -/
def jsMul : JsNum → JsNum → JsNum
  | .num a, .num b => .num (a * b)
  | .nan, _ => .nan
  | _, .nan => .nan
  | .posInf, .num b => if 0 < b then .posInf else if b < 0 then .negInf else .nan
  | .num a, .posInf => if 0 < a then .posInf else if a < 0 then .negInf else .nan
  | .negInf, .num b => if 0 < b then .negInf else if b < 0 then .posInf else .nan
  | .num a, .negInf => if 0 < a then .negInf else if a < 0 then .posInf else .nan
  | .posInf, .posInf => .posInf
  | .posInf, .negInf => .negInf
  | .negInf, .posInf => .negInf
  | .negInf, .negInf => .posInf

/-- JS division on `JsNum` (division by `+0` of a positive number is
`Infinity`, of a negative number `-Infinity`, of zero `NaN`). -/
def jsDiv : JsNum → JsNum → JsNum
  | .num a, .num b =>
    if b = 0 then (if 0 < a then .posInf else if a < 0 then .negInf else .nan)
    else .num (a / b)
  | .nan, _ => .nan
  | _, .nan => .nan
  | .num _, .posInf => .num 0
  | .num _, .negInf => .num 0
  | .posInf, .num b => if b < 0 then .negInf else .posInf
  | .negInf, .num b => if b < 0 then .posInf else .negInf
  | .posInf, _ => .nan
  | .negInf, _ => .nan

/-- JS `Math.max` on `JsNum` (`NaN` if either argument is `NaN`). -/
def jsMax : JsNum → JsNum → JsNum
  | .nan, _ => .nan
  | _, .nan => .nan
  | .posInf, _ => .posInf
  | _, .posInf => .posInf
  | .negInf, b => b
  | a, .negInf => a
  | .num a, .num b => .num (max a b)

/-- The record returned by `calculateDebtMetrics`. -/
structure DebtMetrics where
  totalDebt : JsNum
  totalMinimumPayments : JsNum
  debtToIncomeRatio : JsNum
  averageInterestRate : JsNum
  recommendedPayment : JsNum
  deriving DecidableEq, Repr

/-- `calculateDebtMetrics`: total debt, total minimum payments,
debt-to-income ratio, balance-weighted average interest rate, and the
recommended payment `max(totalMinimumPayments, monthlyIncome * 0.2)`. -/
def calculateDebtMetrics (debts : List Debt) (monthlyIncome : ℚ) : DebtMetrics :=
  let totalDebt := debts.foldl (fun s d => jsAdd s (.num d.balance)) (.num 0)
  let totalMinimumPayments := debts.foldl (fun s d => jsAdd s (.num d.minimumPayment)) (.num 0)
  let debtToIncomeRatio := jsMul (jsDiv totalMinimumPayments (.num monthlyIncome)) (.num 100)
  let weightedInterestRate :=
    jsDiv (debts.foldl (fun s d => jsAdd s (jsMul (.num d.interestRate) (.num d.balance))) (.num 0))
      totalDebt
  { totalDebt := totalDebt
    totalMinimumPayments := totalMinimumPayments
    debtToIncomeRatio := debtToIncomeRatio
    averageInterestRate := weightedInterestRate
    recommendedPayment := jsMax totalMinimumPayments (jsMul (.num monthlyIncome) (.num (2/10))) }

/-! ### Explicit-heap embedding (for the no-mutation/frame claim)

JS debt objects live on a heap; a debt array is a list of addresses.  The
spread `{...debt}` in `calculateDebtStrategy` (and the `map` in
`calculateHybridStrategy`) allocates a fresh object; the simulation then
mutates only those fresh objects.  Addresses are indices into the heap's
record list; allocation appends. -/

/-- Value read for an out-of-range address (never hit by the callers the
claim is about; keeps `Heap.read` total). -/
def defaultDebt : Debt := mkDebt "" 0 0 0

/-- The JS object heap: debt records addressed by index. -/
structure Heap where
  recs : List Debt
  deriving Repr

/-- Dereference an address. -/
def Heap.read (h : Heap) (a : Nat) : Debt :=
  h.recs.getD a defaultDebt

/-- Mutate the record at an address. -/
def Heap.write (h : Heap) (a : Nat) (d : Debt) : Heap :=
  ⟨h.recs.set a d⟩

/-- Allocate a fresh object, returning its address. -/
def Heap.alloc (h : Heap) (d : Debt) : Heap × Nat :=
  (⟨h.recs ++ [d]⟩, h.recs.length)

/-- `sortedDebts.map(debt => ({...debt}))`: allocate a fresh copy of every
referenced debt, returning the new addresses. -/
def copyDebts (h : Heap) : List Nat → Heap × List Nat
  | [] => (h, [])
  | a :: rest =>
    let (h1, a') := h.alloc (h.read a)
    let (h2, rest') := copyDebts h1 rest
    (h2, a' :: rest')

/-- Heap version of the monthly `for` loop: reads and writes the debt
objects at the given addresses in place. -/
def processDebtsMonthH : Heap → List Nat → Nat → ℚ → List String →
    Heap × ℚ × ℚ × List String
  | h, [], _, _, debtOrder => (h, 0, 0, debtOrder)
  | h, a :: rest, i, extraPayment, debtOrder =>
    let debt := h.read a
    if debt.balance ≤ 1/100 then
      processDebtsMonthH h rest (i+1) extraPayment debtOrder
    else
      let monthlyRate := calculateMonthlyRate debt.interestRate
      let interestPayment := debt.balance * monthlyRate
      let payment :=
        if extraPayment > 0 ∧ i = 0 then debt.minimumPayment + extraPayment
        else debt.minimumPayment
      let extraPayment' := if extraPayment > 0 ∧ i = 0 then 0 else extraPayment
      let principalPayment := min (payment - interestPayment) debt.balance
      let newBalance := debt.balance - principalPayment
      let paidOff : Prop := newBalance ≤ 1/100 ∧ debt.id ∉ debtOrder
      let balance' := if paidOff then 0 else newBalance
      let debtOrder' := if paidOff then debtOrder ++ [debt.id] else debtOrder
      let h' := h.write a { debt with balance := balance' }
      let (hF, mi, mp, orderF) := processDebtsMonthH h' rest (i+1) extraPayment' debtOrder'
      (hF, interestPayment + mi, principalPayment + mp, orderF)

/-- Heap version of the `while` loop of `calculateDebtStrategy`. -/
def simulateMonthsH : Nat → Heap → List Nat → ℚ → ℚ → List String → ℚ → Nat →
    Heap × List PaymentBreakdown × List String × ℚ × Nat
  | 0, h, _, _, _, debtOrder, totalInterest, month =>
    (h, [], debtOrder, totalInterest, month)
  | fuel+1, h, addrs, availablePayment, totalMinimums, debtOrder, totalInterest, month =>
    if addrs.any (fun a => decide ((h.read a).balance > 1/100)) then
      let extraPayment := availablePayment - totalMinimums
      let (h', monthlyInterest, monthlyPrincipal, debtOrder') :=
        processDebtsMonthH h addrs 0 extraPayment debtOrder
      let record : PaymentBreakdown :=
        { month := month, principal := monthlyPrincipal, interest := monthlyInterest,
          balance := addrs.foldl (fun s a => s + (h'.read a).balance) 0,
          totalPayment := monthlyPrincipal + monthlyInterest }
      let (hF, restSchedule, finalOrder, finalInterest, finalMonth) :=
        simulateMonthsH fuel h' addrs availablePayment totalMinimums debtOrder'
          (totalInterest + monthlyInterest) (month+1)
      (hF, record :: restSchedule, finalOrder, finalInterest, finalMonth)
    else
      (h, [], debtOrder, totalInterest, month)

/-- Heap version of `calculateDebtStrategy`: copies the referenced debts,
then simulates on the copies.  Returns the result together with the final
heap (the heap is returned even on the insufficient-payment throw). -/
def calculateDebtStrategyH (h : Heap) (sortedAddrs : List Nat) (availablePayment : ℚ)
    (strategy : RepaymentStrategy) : Except String DebtAnalysis × Heap :=
  let (h1, copyAddrs) := copyDebts h sortedAddrs
  let totalMinimums := copyAddrs.foldl (fun s a => s + (h1.read a).minimumPayment) 0
  if totalMinimums > availablePayment then
    (.error "Available payment is less than total minimum payments required", h1)
  else
    let (hF, paymentSchedule, debtOrder, totalInterest, month) :=
      simulateMonthsH 600 h1 copyAddrs availablePayment totalMinimums [] 0 1
    (.ok { strategy := strategy, totalInterest := totalInterest,
           payoffTimeMonths := month - 1, monthlyPayment := availablePayment,
           paymentSchedule := paymentSchedule, debtOrder := debtOrder }, hF)

/-- Heap version of `calculateSnowballStrategy`: `[...debts]` copies the
array (not the objects), so the caller's address list is sorted as a
value; the heap is untouched by the sort. -/
def calculateSnowballStrategyH (h : Heap) (addrs : List Nat) (availablePayment : ℚ) :
    Except String DebtAnalysis × Heap :=
  let sortedAddrs :=
    List.insertionSort (fun a b => (h.read a).balance ≤ (h.read b).balance) addrs
  calculateDebtStrategyH h sortedAddrs availablePayment .snowball

/-- Heap version of `calculateAvalancheStrategy`. -/
def calculateAvalancheStrategyH (h : Heap) (addrs : List Nat) (availablePayment : ℚ) :
    Except String DebtAnalysis × Heap :=
  let sortedAddrs :=
    List.insertionSort (fun a b => (h.read b).interestRate ≤ (h.read a).interestRate) addrs
  calculateDebtStrategyH h sortedAddrs availablePayment .avalanche

/-- Heap version of `calculateHybridStrategy`: the `map` allocates a scored
copy of every debt (the transient `hybridScore` field is recomputed from
the copy rather than stored), the copies are sorted by score and passed to
the engine. -/
def calculateHybridStrategyH (h : Heap) (addrs : List Nat) (availablePayment : ℚ) :
    Except String DebtAnalysis × Heap :=
  let (h1, scoredAddrs) := copyDebts h addrs
  let sortedAddrs :=
    List.insertionSort (fun a b => hybridScore (h1.read a) ≤ hybridScore (h1.read b)) scoredAddrs
  calculateDebtStrategyH h1 sortedAddrs availablePayment .hybrid

/-- A debt whose minimum payment covers the interest its current balance
accrues in a month, with non-negative balance and rate.  `validateDebts`
enforces a strict version of this for every accepted debt. -/
def CoveredDebt (d : Debt) : Prop :=
  0 ≤ d.interestRate ∧ 0 ≤ d.balance ∧
    d.balance * calculateMonthlyRate d.interestRate ≤ d.minimumPayment

instance : DecidablePred CoveredDebt := fun d =>
  decidable_of_iff (0 ≤ d.interestRate ∧ 0 ≤ d.balance ∧
    d.balance * calculateMonthlyRate d.interestRate ≤ d.minimumPayment) Iff.rfl

/-- How one month of processing relates a debt to its updated copy: every
field except the balance is unchanged, and the balance moves downward but
not below zero. -/
def BalanceStep (d d' : Debt) : Prop :=
  d'.id = d.id ∧ d'.interestRate = d.interestRate ∧
    d'.minimumPayment = d.minimumPayment ∧ 0 ≤ d'.balance ∧ d'.balance ≤ d.balance

/-- The relation the simulation maintains between the debt states and the
payoff order: a debt whose id has been recorded is exactly one whose
balance has been clamped to zero; an unrecorded debt still owes more than
the 0.01 epsilon. -/
def OrderSync (debts : List Debt) (order : List String) : Prop :=
  ∀ d ∈ debts, (d.id ∈ order → d.balance = 0) ∧ (d.id ∉ order → 1/100 < d.balance)

/-! ## Helper lemmas -/

theorem foldl_add_eq {α : Type} (f : α → ℚ) (l : List α) :
    ∀ init : ℚ, l.foldl (fun s x => s + f x) init = init + (l.map f).sum := by
  induction l with
  | nil => intro init; simp
  | cons a t ih =>
    intro init
    simp only [List.foldl_cons, List.map_cons, List.sum_cons, ih]
    ring

/-- The insufficient-payment check of `calculateDebtStrategy`, alone. -/
theorem calculateDebtStrategy_isError (debts : List Debt) (availablePayment : ℚ)
    (strategy : RepaymentStrategy) :
    isError (calculateDebtStrategy debts availablePayment strategy) = true ↔
      (debts.map Debt.minimumPayment).sum > availablePayment := by
  simp only [calculateDebtStrategy]
  rw [foldl_add_eq, zero_add]
  split
  · next hgt => simpa [isError] using hgt
  · next hle =>
    rcases hs : simulateMonths 600 debts availablePayment ((debts.map Debt.minimumPayment).sum)
        [] 0 1 with ⟨sched, fd, fo, fi, fm⟩
    simpa [isError] using hle

/-- A policy ordering does not change the multiset of minimum payments. -/
theorem sortedMinimumsEq (r : Debt → Debt → Prop) [DecidableRel r] (debts : List Debt) :
    ((List.insertionSort r debts).map Debt.minimumPayment).sum =
      (debts.map Debt.minimumPayment).sum :=
  ((List.perm_insertionSort r debts).map Debt.minimumPayment).sum_eq

/-- Claim C6: for every input debt list and each of the three policies
(snowball: ascending balance; avalanche: descending interest rate; hybrid:
ascending blended score 0.4 × balance/10000 + 0.6 × annual rate), the
ordered debt sequence the strategy operates on is a permutation of the
input list (same multiset of debt ids). -/
theorem claim_C6_orderByPolicy_perm (debts : List Debt) :
    ((snowballOrder debts).map Debt.id).Perm (debts.map Debt.id) ∧
    ((avalancheOrder debts).map Debt.id).Perm (debts.map Debt.id) ∧
    ((hybridOrder debts).map Debt.id).Perm (debts.map Debt.id) :=
  ⟨(List.perm_insertionSort _ debts).map _,
   (List.perm_insertionSort _ debts).map _,
   (List.perm_insertionSort _ debts).map _⟩

/-- Claim C3: the simulation (through `calculateDebtStrategy` itself or any
of the three strategy functions) fails if and only if the sum of the
debts' minimum payments strictly exceeds the available monthly payment,
and when it fails it returns the insufficient-payment error alone, with no
schedule or partial result (the `Except.error` carries only the message). -/
theorem claim_C3_insufficient_iff (debts : List Debt) (availablePayment : ℚ)
    (strategy : RepaymentStrategy) :
    (isError (calculateDebtStrategy debts availablePayment strategy) = true ↔
      (debts.map Debt.minimumPayment).sum > availablePayment) ∧
    (isError (calculateSnowballStrategy debts availablePayment) = true ↔
      (debts.map Debt.minimumPayment).sum > availablePayment) ∧
    (isError (calculateAvalancheStrategy debts availablePayment) = true ↔
      (debts.map Debt.minimumPayment).sum > availablePayment) ∧
    (isError (calculateHybridStrategy debts availablePayment) = true ↔
      (debts.map Debt.minimumPayment).sum > availablePayment) ∧
    ((debts.map Debt.minimumPayment).sum > availablePayment →
      calculateDebtStrategy debts availablePayment strategy =
        .error "Available payment is less than total minimum payments required") := by
  refine ⟨calculateDebtStrategy_isError debts availablePayment strategy, ?_, ?_, ?_, ?_⟩
  · rw [calculateSnowballStrategy, calculateDebtStrategy_isError, snowballOrder,
      sortedMinimumsEq]
  · rw [calculateAvalancheStrategy, calculateDebtStrategy_isError, avalancheOrder,
      sortedMinimumsEq]
  · rw [calculateHybridStrategy, calculateDebtStrategy_isError, hybridOrder,
      sortedMinimumsEq]
  · intro hgt
    simp only [calculateDebtStrategy]
    rw [foldl_add_eq, zero_add, if_pos hgt]

/-- Claim C10: for the empty debt list and a non-negative budget, each
strategy function succeeds with total interest 0, payoff time 0, an empty
schedule and an empty payoff order. -/
theorem claim_C10_empty (availablePayment : ℚ) (h : 0 ≤ availablePayment) :
    calculateSnowballStrategy [] availablePayment =
      .ok { strategy := .snowball, totalInterest := 0, payoffTimeMonths := 0,
            monthlyPayment := availablePayment, paymentSchedule := [], debtOrder := [] } ∧
    calculateAvalancheStrategy [] availablePayment =
      .ok { strategy := .avalanche, totalInterest := 0, payoffTimeMonths := 0,
            monthlyPayment := availablePayment, paymentSchedule := [], debtOrder := [] } ∧
    calculateHybridStrategy [] availablePayment =
      .ok { strategy := .hybrid, totalInterest := 0, payoffTimeMonths := 0,
            monthlyPayment := availablePayment, paymentSchedule := [], debtOrder := [] } := by
  have key : ∀ s : RepaymentStrategy, calculateDebtStrategy [] availablePayment s =
      .ok { strategy := s, totalInterest := 0, payoffTimeMonths := 0,
            monthlyPayment := availablePayment, paymentSchedule := [], debtOrder := [] } := by
    intro s
    simp only [calculateDebtStrategy, List.foldl_nil]
    split
    · next hc => exact absurd hc (not_lt.2 h)
    · rfl
  exact ⟨key .snowball, key .avalanche, key .hybrid⟩

/-- Witness for claim C10 at budget 7. -/
theorem claim_C10_witness :
    calculateSnowballStrategy [] 7 =
      .ok { strategy := .snowball, totalInterest := 0, payoffTimeMonths := 0,
            monthlyPayment := 7, paymentSchedule := [], debtOrder := [] } ∧
    calculateAvalancheStrategy [] 7 =
      .ok { strategy := .avalanche, totalInterest := 0, payoffTimeMonths := 0,
            monthlyPayment := 7, paymentSchedule := [], debtOrder := [] } ∧
    calculateHybridStrategy [] 7 =
      .ok { strategy := .hybrid, totalInterest := 0, payoffTimeMonths := 0,
            monthlyPayment := 7, paymentSchedule := [], debtOrder := [] } :=
  claim_C10_empty 7 (by norm_num)

/-- Claim C1 (code bug evaluation): with debts a (balance 100, rate 0,
minimum 50) and b (balance 1000, rate 0, minimum 50) and budget 150
(extra = 50), month 1 pays debt a off with its minimum plus the extra
(total 150); in month 2 the extra is NOT reassigned to debt b — the month
pays only b's minimum of 50, because the source gives the extra
exclusively to array index 0 (`i === 0`) rather than to the first debt
that still has a balance, so once the index-0 debt is paid the extra is
dropped every month. -/
theorem claim_C1_extra_dropped :
    (resultSchedule (calculateSnowballStrategy
        [mkDebt "a" 100 0 50, mkDebt "b" 1000 0 50] 150)).take 2 =
      [{ month := 1, principal := 150, interest := 0, balance := 950, totalPayment := 150 },
       { month := 2, principal := 50, interest := 0, balance := 900, totalPayment := 50 }] := by
  decide

/-- The loop's running `totalInterest` equals its initial value plus the
`interest` fields of the records the loop produces. -/
theorem simulateMonths_totalInterest (fuel : Nat) :
    ∀ (debts : List Debt) (p tm : ℚ) (order : List String) (ti : ℚ) (m : Nat),
      (simulateMonths fuel debts p tm order ti m).2.2.2.1 =
        ti + ((simulateMonths fuel debts p tm order ti m).1.map PaymentBreakdown.interest).sum := by
  induction fuel with
  | zero => intro debts p tm order ti m; simp [simulateMonths]
  | succ n ih =>
    intro debts p tm order ti m
    simp only [simulateMonths]
    split
    · simp only [List.map_cons, List.sum_cons]
      rw [ih]
      ring
    · simp

/-- Claim C5: whenever the simulation succeeds, the returned
`totalInterest` equals the sum of the `interest` fields over the returned
payment schedule. -/
theorem claim_C5_totalInterest_sum (debts : List Debt) (availablePayment : ℚ)
    (strategy : RepaymentStrategy) (r : DebtAnalysis)
    (h : calculateDebtStrategy debts availablePayment strategy = .ok r) :
    r.totalInterest = (r.paymentSchedule.map PaymentBreakdown.interest).sum := by
  simp only [calculateDebtStrategy] at h
  split at h
  · exact absurd h (by simp)
  · injection h with h'
    subst h'
    have := simulateMonths_totalInterest 600 debts availablePayment
      (debts.foldl (fun s d => s + d.minimumPayment) 0) [] 0 1
    simpa using this

/-- Witness for claim C5: a debt of 100 at rate 0 with minimum 50 and
budget 50 pays off in two months with zero interest. -/
theorem claim_C5_witness :
    ({ strategy := .snowball, totalInterest := 0, payoffTimeMonths := 2, monthlyPayment := 50,
       paymentSchedule :=
         [{ month := 1, principal := 50, interest := 0, balance := 50, totalPayment := 50 },
          { month := 2, principal := 50, interest := 0, balance := 0, totalPayment := 50 }],
       debtOrder := ["a"] } : DebtAnalysis).totalInterest =
      (({ strategy := .snowball, totalInterest := 0, payoffTimeMonths := 2, monthlyPayment := 50,
          paymentSchedule :=
            [{ month := 1, principal := 50, interest := 0, balance := 50, totalPayment := 50 },
             { month := 2, principal := 50, interest := 0, balance := 0, totalPayment := 50 }],
          debtOrder := ["a"] } : DebtAnalysis).paymentSchedule.map
        PaymentBreakdown.interest).sum :=
  claim_C5_totalInterest_sum [mkDebt "a" 100 0 50] 50 .snowball _ (by rfl)

theorem calculateMonthlyRate_nonneg {r : ℚ} (h : 0 ≤ r) : 0 ≤ calculateMonthlyRate r :=
  div_nonneg (div_nonneg h (by norm_num)) (by norm_num)

/-- The updated balance `bal - min x bal` stays within `[0, bal]` whenever
the principal candidate `x` is non-negative. -/
theorem newBalance_bounds (bal x : ℚ) (hbpos : 0 < bal) (hx : 0 ≤ x) :
    0 ≤ bal - min x bal ∧ bal - min x bal ≤ bal :=
  ⟨by linarith [min_le_right x bal], by linarith [le_min hx (le_of_lt hbpos)]⟩

/-- One month of processing only moves balances downward (and never below
zero) when every debt's minimum payment covers its monthly interest and
the extra payment is non-negative. -/
theorem processDebtsMonth_balances (debts : List Debt) :
    ∀ (i : Nat) (extra : ℚ) (order : List String),
      0 ≤ extra → (∀ d ∈ debts, CoveredDebt d) →
      List.Forall₂ BalanceStep debts (processDebtsMonth debts i extra order).1 := by
  induction debts with
  | nil => intro i extra order _ _; simp [processDebtsMonth]
  | cons d rest ih =>
    intro i extra order hextra hcov
    obtain ⟨hr, hb, hc⟩ := hcov d (List.mem_cons_self d rest)
    have hrest : ∀ x ∈ rest, CoveredDebt x := fun x hx => hcov x (List.mem_cons_of_mem d hx)
    simp only [processDebtsMonth]
    split
    · exact List.Forall₂.cons ⟨rfl, rfl, rfl, hb, le_rfl⟩ (ih (i+1) extra order hextra hrest)
    · next hproc =>
      push_neg at hproc
      have hbpos : 0 < d.balance := lt_trans (by norm_num) hproc
      by_cases hc1 : extra > 0 ∧ i = 0
      · simp only [if_pos hc1]
        have hx : 0 ≤ d.minimumPayment + extra -
            d.balance * calculateMonthlyRate d.interestRate := by linarith [hc1.1]
        obtain ⟨hB0, hBle⟩ := newBalance_bounds d.balance _ hbpos hx
        refine List.Forall₂.cons ⟨rfl, rfl, rfl, ?_, ?_⟩ (ih (i+1) 0 _ le_rfl hrest)
        · dsimp only
          split
          · exact le_rfl
          · exact hB0
        · dsimp only
          split
          · exact le_of_lt hbpos
          · exact hBle
      · simp only [if_neg hc1]
        have hx : 0 ≤ d.minimumPayment -
            d.balance * calculateMonthlyRate d.interestRate := by linarith
        obtain ⟨hB0, hBle⟩ := newBalance_bounds d.balance _ hbpos hx
        refine List.Forall₂.cons ⟨rfl, rfl, rfl, ?_, ?_⟩ (ih (i+1) extra _ hextra hrest)
        · dsimp only
          split
          · exact le_rfl
          · exact hB0
        · dsimp only
          split
          · exact le_of_lt hbpos
          · exact hBle

/-- Balance sums stay non-negative and do not increase across a
`BalanceStep`-related update. -/
theorem forall₂_balanceStep_sum : ∀ {l l' : List Debt}, List.Forall₂ BalanceStep l l' →
    0 ≤ (l'.map Debt.balance).sum ∧ (l'.map Debt.balance).sum ≤ (l.map Debt.balance).sum := by
  intro l l' h
  induction h with
  | nil => simp
  | cons h1 h2 ih =>
    obtain ⟨_, _, _, h0, hle⟩ := h1
    simp only [List.map_cons, List.sum_cons]
    exact ⟨add_nonneg h0 ih.1, add_le_add hle ih.2⟩

/-- Interest coverage is preserved by a month of processing. -/
theorem forall₂_balanceStep_covered :
    ∀ {l l' : List Debt}, List.Forall₂ BalanceStep l l' →
      (∀ d ∈ l, CoveredDebt d) → ∀ d ∈ l', CoveredDebt d := by
  intro l l' h
  induction h with
  | nil => intro _ d hd; exact absurd hd (List.not_mem_nil d)
  | @cons a b l1 l2 h1 h2 ih =>
    intro hcov d' hd'
    obtain ⟨hra, hba, hca⟩ := hcov a (List.mem_cons_self a l1)
    rcases List.mem_cons.1 hd' with rfl | hmem
    · obtain ⟨hid, hrate, hmin, h0, hle⟩ := h1
      refine ⟨by rw [hrate]; exact hra, h0, ?_⟩
      rw [hrate, hmin]
      exact le_trans (mul_le_mul_of_nonneg_right hle (calculateMonthlyRate_nonneg hra)) hca
    · exact ih (fun x hx => hcov x (List.mem_cons_of_mem a hx)) d' hmem

theorem nonincQ_cons {a : ℚ} {l : List ℚ} (h : nonincQ l = true)
    (hh : ∀ x, l.head? = some x → x ≤ a) : nonincQ (a :: l) = true := by
  cases l with
  | nil => rfl
  | cons b t =>
    simp only [nonincQ, Bool.and_eq_true, decide_eq_true_eq]
    exact ⟨hh b rfl, h⟩

/-- The schedule the loop produces has at most `fuel` records, all with
non-negative, non-increasing aggregate balances bounded by the entry
balance sum — provided every debt's minimum payment covers its monthly
interest and the extra payment is non-negative. -/
theorem simulateMonths_balances (fuel : Nat) :
    ∀ (debts : List Debt) (p tm : ℚ) (order : List String) (ti : ℚ) (m : Nat),
      0 ≤ p - tm → (∀ d ∈ debts, CoveredDebt d) →
      (simulateMonths fuel debts p tm order ti m).1.length ≤ fuel ∧
      (∀ rec ∈ (simulateMonths fuel debts p tm order ti m).1, 0 ≤ rec.balance) ∧
      nonincQ ((simulateMonths fuel debts p tm order ti m).1.map PaymentBreakdown.balance) = true ∧
      (∀ rec, (simulateMonths fuel debts p tm order ti m).1.head? = some rec →
        rec.balance ≤ (debts.map Debt.balance).sum) := by
  induction fuel with
  | zero =>
    intro debts p tm order ti m _ _
    refine ⟨?_, ?_, ?_, ?_⟩ <;> simp [simulateMonths, nonincQ]
  | succ n ih =>
    intro debts p tm order ti m hextra hcov
    simp only [simulateMonths]
    split
    · have hstep := processDebtsMonth_balances debts 0 (p - tm) order hextra hcov
      have hcov' := forall₂_balanceStep_covered hstep hcov
      have hsum := forall₂_balanceStep_sum hstep
      obtain ⟨ihlen, ihnn, ihni, ihhd⟩ :=
        ih (processDebtsMonth debts 0 (p - tm) order).1 p tm
          (processDebtsMonth debts 0 (p - tm) order).2.2.2
          (ti + (processDebtsMonth debts 0 (p - tm) order).2.1) (m+1) hextra hcov'
      refine ⟨?_, ?_, ?_, ?_⟩
      · simpa using Nat.succ_le_succ ihlen
      · intro rec hrec
        rcases List.mem_cons.1 hrec with rfl | hmem
        · show 0 ≤ (processDebtsMonth debts 0 (p - tm) order).1.foldl (fun s d => s + d.balance) 0
          rw [foldl_add_eq, zero_add]
          exact hsum.1
        · exact ihnn rec hmem
      · rw [List.map_cons]
        refine nonincQ_cons ihni ?_
        intro x hx
        rw [List.head?_map] at hx
        cases hrec : (simulateMonths n (processDebtsMonth debts 0 (p - tm) order).1 p tm
            (processDebtsMonth debts 0 (p - tm) order).2.2.2
            (ti + (processDebtsMonth debts 0 (p - tm) order).2.1) (m+1)).1.head? with
        | none => rw [hrec] at hx; exact absurd hx (by simp)
        | some rec0 =>
          rw [hrec] at hx
          have hx' : rec0.balance = x := by simpa using hx
          have hbound := ihhd rec0 hrec
          show x ≤ (processDebtsMonth debts 0 (p - tm) order).1.foldl (fun s d => s + d.balance) 0
          rw [foldl_add_eq, zero_add, ← hx']
          exact hbound
      · intro rec hrec
        simp only [List.head?_cons, Option.some.injEq] at hrec
        subst hrec
        show (processDebtsMonth debts 0 (p - tm) order).1.foldl (fun s d => s + d.balance) 0 ≤ _
        rw [foldl_add_eq, zero_add]
        exact hsum.2
    · refine ⟨?_, ?_, ?_, ?_⟩ <;> simp [nonincQ]

/-- Claim C2 (amended): for every debt list with non-negative balances and
rates whose minimum payments cover each debt's monthly interest, and every
budget at least the sum of minimum payments (so that the simulation
succeeds), the simulation produces at most 600 payment-period records and
the per-period remaining aggregate balances are non-negative and
non-increasing.  (Without the interest-coverage hypothesis the claim is
false: a minimum payment below the monthly interest makes the balance grow
every month — see the counterexample.) -/
theorem claim_C2_terminates_nonincreasing (debts : List Debt) (availablePayment : ℚ)
    (strategy : RepaymentStrategy) (r : DebtAnalysis)
    (h : calculateDebtStrategy debts availablePayment strategy = .ok r)
    (hcov : ∀ d ∈ debts, CoveredDebt d) :
    r.paymentSchedule.length ≤ 600 ∧
    (∀ rec ∈ r.paymentSchedule, 0 ≤ rec.balance) ∧
    nonincQ (r.paymentSchedule.map PaymentBreakdown.balance) = true := by
  simp only [calculateDebtStrategy] at h
  split at h
  · exact absurd h (by simp)
  · next hle =>
    injection h with h'
    subst h'
    rw [not_lt] at hle
    have hextra : 0 ≤ availablePayment - debts.foldl (fun s d => s + d.minimumPayment) 0 := by
      linarith
    generalize hTM : debts.foldl (fun s d => s + d.minimumPayment) 0 = TM at hextra ⊢
    obtain ⟨h1, h2, h3, _⟩ :=
      simulateMonths_balances 600 debts availablePayment TM [] 0 1 hextra hcov
    exact ⟨h1, h2, h3⟩

set_option maxRecDepth 10000 in
/-- Counterexample to claim C2 as stated: debt x has balance 2, annual rate
1200% (monthly rate 1) and minimum payment 1, with budget 1 (equal to the
minimum sum, so the simulation runs).  Interest each month exceeds the
payment, so the balance grows: the period balances run 3, 5, 9, … and the
sequence is not non-increasing. -/
theorem claim_C2_counterexample :
    nonincQ ((resultSchedule (calculateDebtStrategy [mkDebt "x" 2 1200 1] 1 .snowball)).map
      PaymentBreakdown.balance) = false := by
  decide

/-- Witness for claim C2 at a covered debt (balance 100, rate 0, minimum
50) and budget 50. -/
theorem claim_C2_witness :
    (resultSchedule (calculateDebtStrategy [mkDebt "a" 100 0 50] 50 .snowball)).length ≤ 600 ∧
    (∀ rec ∈ resultSchedule (calculateDebtStrategy [mkDebt "a" 100 0 50] 50 .snowball),
      0 ≤ rec.balance) ∧
    nonincQ ((resultSchedule (calculateDebtStrategy [mkDebt "a" 100 0 50] 50 .snowball)).map
      PaymentBreakdown.balance) = true :=
  claim_C2_terminates_nonincreasing [mkDebt "a" 100 0 50] 50 .snowball
    { strategy := .snowball, totalInterest := 0, payoffTimeMonths := 2, monthlyPayment := 50,
      paymentSchedule := [⟨1, 50, 0, 50, 50⟩, ⟨2, 50, 0, 0, 50⟩], debtOrder := ["a"] }
    (by rfl) (by decide)

/-- Pushing a fresh id keeps the payoff order duplicate-free. -/
theorem nodup_push {order : List String} {s : String} (h : order.Nodup) (hs : s ∉ order) :
    (order ++ [s]).Nodup := by
  rw [List.nodup_append]
  exact ⟨h, List.nodup_singleton s,
    fun x hx hxs => hs ((List.mem_singleton.1 hxs) ▸ hx)⟩

/-- Unconditionally, one month of processing keeps the payoff order
duplicate-free and only extends it. -/
theorem processDebtsMonth_order_nodup (debts : List Debt) :
    ∀ (i : Nat) (extra : ℚ) (order : List String), order.Nodup →
      (processDebtsMonth debts i extra order).2.2.2.Nodup ∧
      order ⊆ (processDebtsMonth debts i extra order).2.2.2 := by
  induction debts with
  | nil => intro i extra order h; exact ⟨h, fun s hs => hs⟩
  | cons d rest ih =>
    intro i extra order h
    simp only [processDebtsMonth]
    split
    · exact ih (i+1) extra order h
    · set PAY := if extra > 0 ∧ i = 0 then d.minimumPayment + extra else d.minimumPayment
        with hPAY
      set E := if extra > 0 ∧ i = 0 then (0:ℚ) else extra with hE
      split
      · next hpo =>
        obtain ⟨hnodup', hsub'⟩ := ih (i+1) E _ (nodup_push h hpo.2)
        exact ⟨hnodup', fun s hs => hsub' (List.mem_append_left _ hs)⟩
      · exact ih (i+1) E _ h

/-- Unconditionally, the whole loop keeps the payoff order
duplicate-free. -/
theorem simulateMonths_order_nodup (fuel : Nat) :
    ∀ (debts : List Debt) (p tm : ℚ) (order : List String) (ti : ℚ) (m : Nat), order.Nodup →
      (simulateMonths fuel debts p tm order ti m).2.2.1.Nodup := by
  induction fuel with
  | zero => intro debts p tm order ti m h; exact h
  | succ n ih =>
    intro debts p tm order ti m h
    simp only [simulateMonths]
    split
    · exact ih _ p tm _ _ (m+1) (processDebtsMonth_order_nodup debts 0 (p - tm) order h).1
    · exact h

/-- One month of processing preserves ids and the `OrderSync` invariant:
ids never change, the order only grows, new entries come from the debts,
and recorded ids stay exactly the zero-balance clamped debts. -/
theorem processDebtsMonth_orderSync (debts : List Debt) :
    ∀ (i : Nat) (extra : ℚ) (order : List String),
      (debts.map Debt.id).Nodup → order.Nodup → OrderSync debts order →
      (processDebtsMonth debts i extra order).1.map Debt.id = debts.map Debt.id ∧
      order ⊆ (processDebtsMonth debts i extra order).2.2.2 ∧
      (∀ s ∈ (processDebtsMonth debts i extra order).2.2.2,
        s ∈ order ∨ s ∈ debts.map Debt.id) ∧
      OrderSync (processDebtsMonth debts i extra order).1
        (processDebtsMonth debts i extra order).2.2.2 := by
  induction debts with
  | nil =>
    intro i extra order _ _ _
    exact ⟨rfl, fun s hs => hs, fun s hs => Or.inl hs, fun d hd => absurd hd (List.not_mem_nil d)⟩
  | cons d rest ih =>
    intro i extra order hids hord hsync
    have hidd : d.id ∉ rest.map Debt.id := (List.nodup_cons.1 (by simpa using hids)).1
    have hids' : (rest.map Debt.id).Nodup := (List.nodup_cons.1 (by simpa using hids)).2
    have hsyncd := hsync d (List.mem_cons_self d rest)
    have hsyncrest : OrderSync rest order := fun x hx => hsync x (List.mem_cons_of_mem d hx)
    simp only [processDebtsMonth]
    split
    · -- skipped debt: balance ≤ 0.01, so its id must already be recorded
      next hskip =>
      have hdin : d.id ∈ order := by
        by_contra hni
        exact absurd (hsyncd.2 hni) (not_lt.2 hskip)
      obtain ⟨hmap, hsub, hnew, hsync'⟩ := ih (i+1) extra order hids' hord hsyncrest
      refine ⟨by simpa using hmap, hsub, fun s hs => (hnew s hs).imp_right
        (fun h => List.mem_cons_of_mem _ h), ?_⟩
      intro d' hd'
      rcases List.mem_cons.1 hd' with rfl | hmem
      · exact ⟨fun _ => hsyncd.1 hdin, fun hni => absurd (hsub hdin) hni⟩
      · exact hsync' d' hmem
    · -- processed debt: balance > 0.01, so its id is not yet recorded
      next hproc =>
      push_neg at hproc
      have hdni : d.id ∉ order := fun hin => by
        have := hsyncd.1 hin
        rw [this] at hproc
        exact absurd hproc (by norm_num)
      set PAY := if extra > 0 ∧ i = 0 then d.minimumPayment + extra else d.minimumPayment
        with hPAY
      set E := if extra > 0 ∧ i = 0 then (0:ℚ) else extra with hE
      split
      · -- the debt reaches the epsilon this month: clamp and push
        next hpo =>
        have hord2 : (order ++ [d.id]).Nodup := nodup_push hord hdni
        have hsyncrest2 : OrderSync rest (order ++ [d.id]) := by
          intro x hx
          have hxid : x.id ≠ d.id := by
            intro he
            exact hidd (he ▸ List.mem_map_of_mem Debt.id hx)
          constructor
          · intro hxin
            rcases List.mem_append.1 hxin with hxo | hxd
            · exact (hsyncrest x hx).1 hxo
            · exact absurd (List.mem_singleton.1 hxd) hxid
          · intro hxni
            exact (hsyncrest x hx).2 (fun hxo => hxni (List.mem_append_left _ hxo))
        obtain ⟨hmap, hsub, hnew, hsync'⟩ := ih (i+1) _ _ hids' hord2 hsyncrest2
        refine ⟨by simpa using hmap, ?_, ?_, ?_⟩
        · exact fun s hs => hsub (List.mem_append_left _ hs)
        · intro s hs
          rcases hnew s hs with hso | hsr
          · rcases List.mem_append.1 hso with h1 | h2
            · exact Or.inl h1
            · exact Or.inr (by simpa using Or.inl (List.mem_singleton.1 h2))
          · exact Or.inr (List.mem_cons_of_mem _ hsr)
        · intro d' hd'
          rcases List.mem_cons.1 hd' with rfl | hmem
          · constructor
            · intro _
              rfl
            · intro hni
              exact absurd (hsub (List.mem_append_right _ (List.mem_singleton_self _))) hni
          · exact hsync' d' hmem
      · -- the debt still owes more than the epsilon afterwards
        next hpo =>
        have hnb : 1/100 < d.balance -
            min (PAY - d.balance * calculateMonthlyRate d.interestRate) d.balance := by
          rcases not_and_or.1 hpo with h1 | h2
          · exact not_le.1 h1
          · exact absurd hdni (by simpa using h2)
        obtain ⟨hmap, hsub, hnew, hsync'⟩ := ih (i+1) _ _ hids' hord hsyncrest
        refine ⟨by simpa using hmap, hsub, fun s hs => (hnew s hs).imp_right
          (fun h => List.mem_cons_of_mem _ h), ?_⟩
        intro d' hd'
        rcases List.mem_cons.1 hd' with rfl | hmem
        · have hdnf : d.id ∉ (processDebtsMonth rest (i+1) E order).2.2.2 := by
            intro hin
            rcases hnew _ hin with h1 | h2
            · exact hdni h1
            · exact hidd h2
          exact ⟨fun hin => absurd hin hdnf, fun _ => hnb⟩
        · exact hsync' d' hmem

/-- The whole loop preserves ids and the `OrderSync` invariant, and every
payoff-order entry comes from the initial order or the debts. -/
theorem simulateMonths_orderSync (fuel : Nat) :
    ∀ (debts : List Debt) (p tm : ℚ) (order : List String) (ti : ℚ) (m : Nat),
      (debts.map Debt.id).Nodup → order.Nodup → OrderSync debts order →
      (simulateMonths fuel debts p tm order ti m).2.1.map Debt.id = debts.map Debt.id ∧
      (∀ s ∈ (simulateMonths fuel debts p tm order ti m).2.2.1,
        s ∈ order ∨ s ∈ debts.map Debt.id) ∧
      OrderSync (simulateMonths fuel debts p tm order ti m).2.1
        (simulateMonths fuel debts p tm order ti m).2.2.1 := by
  induction fuel with
  | zero =>
    intro debts p tm order ti m _ _ hsync
    exact ⟨rfl, fun s hs => Or.inl hs, hsync⟩
  | succ n ih =>
    intro debts p tm order ti m hids hord hsync
    simp only [simulateMonths]
    split
    · obtain ⟨hmap, hsub, hnew, hsync'⟩ :=
        processDebtsMonth_orderSync debts 0 (p - tm) order hids hord hsync
      have hord' := (processDebtsMonth_order_nodup debts 0 (p - tm) order hord).1
      obtain ⟨ihmap, ihnew, ihsync⟩ :=
        ih (processDebtsMonth debts 0 (p - tm) order).1 p tm
          (processDebtsMonth debts 0 (p - tm) order).2.2.2
          (ti + (processDebtsMonth debts 0 (p - tm) order).2.1) (m+1)
          (hmap ▸ hids) hord' hsync'
      refine ⟨by rw [ihmap, hmap], ?_, ihsync⟩
      intro s hs
      rcases ihnew s hs with h1 | h2
      · exact hnew s h1
      · exact Or.inr (hmap ▸ h2)
    · exact ⟨rfl, fun s hs => Or.inl hs, hsync⟩

/-- One month of processing only appends to the payoff order. -/
theorem processDebtsMonth_order_append (debts : List Debt) :
    ∀ (i : Nat) (extra : ℚ) (order : List String),
      ∃ ext, (processDebtsMonth debts i extra order).2.2.2 = order ++ ext := by
  induction debts with
  | nil => intro i extra order; exact ⟨[], (List.append_nil order).symm⟩
  | cons d rest ih =>
    intro i extra order
    simp only [processDebtsMonth]
    split
    · exact ih (i+1) extra order
    · set PAY := if extra > 0 ∧ i = 0 then d.minimumPayment + extra else d.minimumPayment
        with hPAY
      set E := if extra > 0 ∧ i = 0 then (0:ℚ) else extra with hE
      split
      · obtain ⟨ext, hext⟩ := ih (i+1) E (order ++ [d.id])
        exact ⟨[d.id] ++ ext, by rw [hext, List.append_assoc]⟩
      · exact ih (i+1) E order

/-- The loop only appends to the payoff order. -/
theorem simulateMonths_order_append (fuel : Nat) :
    ∀ (debts : List Debt) (p tm : ℚ) (order : List String) (ti : ℚ) (m : Nat),
      ∃ ext, (simulateMonths fuel debts p tm order ti m).2.2.1 = order ++ ext := by
  induction fuel with
  | zero => intro debts p tm order ti m; exact ⟨[], (List.append_nil order).symm⟩
  | succ n ih =>
    intro debts p tm order ti m
    simp only [simulateMonths]
    split
    · obtain ⟨ext1, h1⟩ := processDebtsMonth_order_append debts 0 (p - tm) order
      obtain ⟨ext2, h2⟩ := ih (processDebtsMonth debts 0 (p - tm) order).1 p tm
        (processDebtsMonth debts 0 (p - tm) order).2.2.2
        (ti + (processDebtsMonth debts 0 (p - tm) order).2.1) (m+1)
      exact ⟨ext1 ++ ext2, by rw [h2, h1, List.append_assoc]⟩
    · exact ⟨[], (List.append_nil order).symm⟩

/-- Running the loop longer only appends to the payoff order it had
produced by any earlier month: the order after `fuel₁` months is an
initial segment of the order after `fuel₂ ≥ fuel₁` months of the same
run. -/
theorem simulateMonths_order_mono :
    ∀ (fuel₁ fuel₂ : Nat), fuel₁ ≤ fuel₂ →
      ∀ (debts : List Debt) (p tm : ℚ) (order : List String) (ti : ℚ) (m : Nat),
        ∃ ext, (simulateMonths fuel₂ debts p tm order ti m).2.2.1 =
          (simulateMonths fuel₁ debts p tm order ti m).2.2.1 ++ ext := by
  intro fuel₁
  induction fuel₁ with
  | zero =>
    intro fuel₂ _ debts p tm order ti m
    exact simulateMonths_order_append fuel₂ debts p tm order ti m
  | succ k ih =>
    intro fuel₂ hle debts p tm order ti m
    obtain ⟨n, rfl⟩ : ∃ n, fuel₂ = n + 1 := ⟨fuel₂ - 1, by omega⟩
    by_cases hany : (debts.any fun d => decide (d.balance > 1/100)) = true
    · simp only [simulateMonths, if_pos hany]
      exact ih n (by omega) (processDebtsMonth debts 0 (p - tm) order).1 p tm
        (processDebtsMonth debts 0 (p - tm) order).2.2.2
        (ti + (processDebtsMonth debts 0 (p - tm) order).2.1) (m+1)
    · simp only [simulateMonths, if_neg hany]
      exact ⟨[], by simp⟩

/-- Claim C4: in every successful simulation result, each debt id appears
in the payoff order at most once (the order is duplicate-free), and each
recorded id is appended the first month that debt's balance reaches the
0.01 epsilon: the returned order is the state of the payoff order after
month 600, every intermediate order is an initial segment of the returned
one, the order only grows by appending from one month to the next, and —
for debts with unique ids that all start owing more than the epsilon —
after every month the recorded ids are exactly the debts whose balance has
reached the epsilon, so an id enters the order precisely at the first such
month.  Finally, whenever the simulation's final debt states are all at or
below the epsilon (every debt paid off), the payoff order records every
debt: its length equals the number of input debts. -/
theorem claim_C4_payoff_order (debts : List Debt) (availablePayment : ℚ)
    (strategy : RepaymentStrategy) (r : DebtAnalysis)
    (h : calculateDebtStrategy debts availablePayment strategy = .ok r) :
    r.debtOrder.Nodup ∧
    ((debts.map Debt.id).Nodup →
     (∀ d ∈ debts, 1/100 < d.balance) →
     (∀ d ∈ simulationFinalDebts debts availablePayment, d.balance ≤ 1/100) →
     r.debtOrder.length = debts.length) ∧
    ((r.debtOrder = (simulationStateAfter debts availablePayment 600).2) ∧
     (∀ k : Nat, k ≤ 600 →
       ∃ ext, r.debtOrder = (simulationStateAfter debts availablePayment k).2 ++ ext) ∧
     (∀ k : Nat, ∃ ext, (simulationStateAfter debts availablePayment (k+1)).2 =
       (simulationStateAfter debts availablePayment k).2 ++ ext) ∧
     ((debts.map Debt.id).Nodup →
      (∀ d ∈ debts, 1/100 < d.balance) →
      ∀ k : Nat, ∀ d' ∈ (simulationStateAfter debts availablePayment k).1,
        (d'.id ∈ (simulationStateAfter debts availablePayment k).2 ↔ d'.balance ≤ 1/100))) := by
  simp only [calculateDebtStrategy] at h
  split at h
  · exact absurd h (by simp)
  · injection h with h'
    subst h'
    refine ⟨?_, ?_, ?_, ?_, ?_, ?_⟩
    · exact simulateMonths_order_nodup 600 debts availablePayment _ [] 0 1 List.nodup_nil
    · intro hids hstart hdone
      have hsync0 : OrderSync debts [] := by
        intro d hd
        exact ⟨fun hin => absurd hin (List.not_mem_nil _), fun _ => hstart d hd⟩
      obtain ⟨hmap, hnew, hsync⟩ := simulateMonths_orderSync 600 debts availablePayment
        (debts.foldl (fun s d => s + d.minimumPayment) 0) [] 0 1 hids List.nodup_nil hsync0
      have hfin : simulationFinalDebts debts availablePayment =
          (simulateMonths 600 debts availablePayment
            (debts.foldl (fun s d => s + d.minimumPayment) 0) [] 0 1).2.1 := rfl
      have hordnodup := simulateMonths_order_nodup 600 debts availablePayment
        (debts.foldl (fun s d => s + d.minimumPayment) 0) [] 0 1 List.nodup_nil
      -- every final-order entry is a debt id
      have hsubids : (simulateMonths 600 debts availablePayment
          (debts.foldl (fun s d => s + d.minimumPayment) 0) [] 0 1).2.2.1 ⊆
          debts.map Debt.id := by
        intro s hs
        rcases hnew s hs with h1 | h2
        · exact absurd h1 (List.not_mem_nil s)
        · exact h2
      -- every debt id is in the final order
      have hidssub : debts.map Debt.id ⊆ (simulateMonths 600 debts availablePayment
          (debts.foldl (fun s d => s + d.minimumPayment) 0) [] 0 1).2.2.1 := by
        intro s hs
        rw [← hmap] at hs
        obtain ⟨d, hd, rfl⟩ := List.mem_map.1 hs
        by_contra hni
        have := (hsync d hd).2 hni
        have hle := hdone d (hfin ▸ hd)
        exact absurd this (not_lt.2 hle)
      have hlen1 := List.Subperm.length_le (List.subperm_of_subset hordnodup hsubids)
      have hlen2 := List.Subperm.length_le (List.subperm_of_subset hids hidssub)
      have : (simulateMonths 600 debts availablePayment
          (debts.foldl (fun s d => s + d.minimumPayment) 0) [] 0 1).2.2.1.length =
          (debts.map Debt.id).length := le_antisymm hlen1 hlen2
      simpa using this
    · rfl
    · intro k hk
      exact simulateMonths_order_mono k 600 hk debts availablePayment
        (debts.foldl (fun s d => s + d.minimumPayment) 0) [] 0 1
    · intro k
      exact simulateMonths_order_mono k (k+1) (Nat.le_succ k) debts availablePayment
        (debts.foldl (fun s d => s + d.minimumPayment) 0) [] 0 1
    · intro hids hstart k d' hd'
      have hsync0 : OrderSync debts [] := fun d hd =>
        ⟨fun hin => absurd hin (List.not_mem_nil _), fun _ => hstart d hd⟩
      obtain ⟨_, _, hsync⟩ := simulateMonths_orderSync k debts availablePayment
        (debts.foldl (fun s d => s + d.minimumPayment) 0) [] 0 1 hids List.nodup_nil hsync0
      have hd'' : d' ∈ (simulateMonths k debts availablePayment
          (debts.foldl (fun s d => s + d.minimumPayment) 0) [] 0 1).2.1 := hd'
      constructor
      · intro hin
        have hz := (hsync d' hd'').1 hin
        rw [hz]
        norm_num
      · intro hle
        by_contra hni
        exact absurd ((hsync d' hd'').2 hni) (not_lt.2 hle)

/-- Witness for claim C4: one debt with balance 100, rate 0, minimum 50,
budget 50; it pays off in month 2 and the payoff order is exactly its
id. -/
theorem claim_C4_witness :
    (["a"] : List String).Nodup ∧
    (([mkDebt "a" 100 0 50].map Debt.id).Nodup →
     (∀ d ∈ [mkDebt "a" 100 0 50], 1/100 < d.balance) →
     (∀ d ∈ simulationFinalDebts [mkDebt "a" 100 0 50] 50, d.balance ≤ 1/100) →
     (["a"] : List String).length = [mkDebt "a" 100 0 50].length) ∧
    (((["a"] : List String) = (simulationStateAfter [mkDebt "a" 100 0 50] 50 600).2) ∧
     (∀ k : Nat, k ≤ 600 →
       ∃ ext, (["a"] : List String) =
         (simulationStateAfter [mkDebt "a" 100 0 50] 50 k).2 ++ ext) ∧
     (∀ k : Nat, ∃ ext, (simulationStateAfter [mkDebt "a" 100 0 50] 50 (k+1)).2 =
       (simulationStateAfter [mkDebt "a" 100 0 50] 50 k).2 ++ ext) ∧
     (([mkDebt "a" 100 0 50].map Debt.id).Nodup →
      (∀ d ∈ [mkDebt "a" 100 0 50], 1/100 < d.balance) →
      ∀ k : Nat, ∀ d' ∈ (simulationStateAfter [mkDebt "a" 100 0 50] 50 k).1,
        (d'.id ∈ (simulationStateAfter [mkDebt "a" 100 0 50] 50 k).2 ↔
          d'.balance ≤ 1/100))) :=
  claim_C4_payoff_order [mkDebt "a" 100 0 50] 50 .snowball
    { strategy := .snowball, totalInterest := 0, payoffTimeMonths := 2, monthlyPayment := 50,
      paymentSchedule := [⟨1, 50, 0, 50, 50⟩, ⟨2, 50, 0, 0, 50⟩], debtOrder := ["a"] }
    (by rfl)

theorem string_append_left_cancel {p a b : String} (h : p ++ a = p ++ b) : a = b := by
  have hd : (p ++ a).data = (p ++ b).data := congrArg String.data h
  rw [String.data_append, String.data_append] at hd
  exact String.ext (List.append_cancel_left hd)

/-- Two validation messages for the same debt index with different tails
are different strings. -/
theorem msg_ne (i : Nat) {a b : String} (h : a ≠ b) :
    "Debt " ++ toString (i+1) ++ a ≠ "Debt " ++ toString (i+1) ++ b :=
  fun he => h (string_append_left_cancel he)

/-- The traversal of `validateDebts` is the concatenation of the per-debt
error lists, indexed from the starting index. -/
theorem validateDebtsAux_eq (debts : List Debt) :
    ∀ n : Nat, validateDebtsAux debts n =
      ((debts.enumFrom n).map (fun x => validateDebtErrors x.2 x.1)).flatten := by
  induction debts with
  | nil => intro n; rfl
  | cons d rest ih =>
    intro n
    simp only [validateDebtsAux, List.enumFrom, List.map_cons, List.flatten_cons, ih (n+1)]

/-- Which strings appear among one debt's validation errors: exactly the
message of each violated check. -/
theorem validateDebtErrors_mem (d : Debt) (i : Nat) :
    (("Debt " ++ toString (i+1) ++ ": Balance must be greater than 0")
        ∈ validateDebtErrors d i ↔ d.balance ≤ 0) ∧
    (("Debt " ++ toString (i+1) ++ ": Interest rate must be between 0% and 50%")
        ∈ validateDebtErrors d i ↔ (d.interestRate < 0 ∨ d.interestRate > 50)) ∧
    (("Debt " ++ toString (i+1) ++ ": Minimum payment must be greater than 0")
        ∈ validateDebtErrors d i ↔ d.minimumPayment ≤ 0) ∧
    (("Debt " ++ toString (i+1) ++ ": Minimum payment is too low to cover interest")
        ∈ validateDebtErrors d i ↔
        d.minimumPayment ≤ d.balance * calculateMonthlyRate d.interestRate) := by
  have h12 := msg_ne i (show ": Balance must be greater than 0" ≠
    ": Interest rate must be between 0% and 50%" by decide)
  have h13 := msg_ne i (show ": Balance must be greater than 0" ≠
    ": Minimum payment must be greater than 0" by decide)
  have h14 := msg_ne i (show ": Balance must be greater than 0" ≠
    ": Minimum payment is too low to cover interest" by decide)
  have h23 := msg_ne i (show ": Interest rate must be between 0% and 50%" ≠
    ": Minimum payment must be greater than 0" by decide)
  have h24 := msg_ne i (show ": Interest rate must be between 0% and 50%" ≠
    ": Minimum payment is too low to cover interest" by decide)
  have h34 := msg_ne i (show ": Minimum payment must be greater than 0" ≠
    ": Minimum payment is too low to cover interest" by decide)
  have h21 := h12.symm
  have h31 := h13.symm
  have h41 := h14.symm
  have h32 := h23.symm
  have h42 := h24.symm
  have h43 := h34.symm
  simp only [validateDebtErrors]
  split_ifs with h1 h2 h3 h4 <;>
    simp_all [List.mem_append]

/-- Claim C9: `validateDebts` is a pure total function producing one
human-readable problem string per violated check per debt — the traversal
is the concatenation of per-debt error lists, a check's message appears
for a debt exactly when that check is violated — and on a debt with
balance 1000, rate 24 and minimum payment 15 (interest-only payment 20) it
reports exactly that the minimum payment is too low to cover interest. -/
theorem claim_C9_validateDebts (debts : List Debt) (d : Debt) (i : Nat) :
    (validateDebts debts = ((debts.enum).map (fun x => validateDebtErrors x.2 x.1)).flatten) ∧
    ((("Debt " ++ toString (i+1) ++ ": Balance must be greater than 0")
        ∈ validateDebtErrors d i ↔ d.balance ≤ 0) ∧
     (("Debt " ++ toString (i+1) ++ ": Interest rate must be between 0% and 50%")
        ∈ validateDebtErrors d i ↔ (d.interestRate < 0 ∨ d.interestRate > 50)) ∧
     (("Debt " ++ toString (i+1) ++ ": Minimum payment must be greater than 0")
        ∈ validateDebtErrors d i ↔ d.minimumPayment ≤ 0) ∧
     (("Debt " ++ toString (i+1) ++ ": Minimum payment is too low to cover interest")
        ∈ validateDebtErrors d i ↔
        d.minimumPayment ≤ d.balance * calculateMonthlyRate d.interestRate)) ∧
    validateDebts [mkDebt "d1" 1000 24 15] =
      ["Debt 1: Minimum payment is too low to cover interest"] :=
  ⟨validateDebtsAux_eq debts 0, validateDebtErrors_mem d i, by decide⟩

theorem foldl_jsAdd_balance (debts : List Debt) :
    ∀ q : ℚ, debts.foldl (fun s d => jsAdd s (.num d.balance)) (.num q) =
      .num (q + (debts.map Debt.balance).sum) := by
  induction debts with
  | nil => intro q; simp
  | cons d rest ih =>
    intro q
    simp only [List.foldl_cons]
    have hstep : jsAdd (.num q) (.num d.balance) = .num (q + d.balance) := rfl
    rw [hstep, ih (q + d.balance), List.map_cons, List.sum_cons, add_assoc]

theorem foldl_jsAdd_minimum (debts : List Debt) :
    ∀ q : ℚ, debts.foldl (fun s d => jsAdd s (.num d.minimumPayment)) (.num q) =
      .num (q + (debts.map Debt.minimumPayment).sum) := by
  induction debts with
  | nil => intro q; simp
  | cons d rest ih =>
    intro q
    simp only [List.foldl_cons]
    have hstep : jsAdd (.num q) (.num d.minimumPayment) = .num (q + d.minimumPayment) := rfl
    rw [hstep, ih (q + d.minimumPayment), List.map_cons, List.sum_cons, add_assoc]

theorem foldl_jsAdd_weight (debts : List Debt) :
    ∀ q : ℚ, debts.foldl (fun s d => jsAdd s (jsMul (.num d.interestRate) (.num d.balance)))
        (.num q) =
      .num (q + (debts.map (fun d => d.interestRate * d.balance)).sum) := by
  induction debts with
  | nil => intro q; simp
  | cons d rest ih =>
    intro q
    simp only [List.foldl_cons]
    have hstep : jsAdd (.num q) (jsMul (.num d.interestRate) (.num d.balance)) =
      .num (q + d.interestRate * d.balance) := rfl
    rw [hstep, ih (q + d.interestRate * d.balance), List.map_cons, List.sum_cons, add_assoc]

/-- A list of non-negative balances with zero sum is all zeros. -/
theorem balances_zero_of_sum_zero : ∀ (debts : List Debt),
    (∀ d ∈ debts, 0 ≤ d.balance) → (debts.map Debt.balance).sum = 0 →
    ∀ d ∈ debts, d.balance = 0 := by
  intro debts
  induction debts with
  | nil => intro _ _ d hd; exact absurd hd (List.not_mem_nil d)
  | cons b rest ih =>
    intro hnn hsum d hd
    simp only [List.map_cons, List.sum_cons] at hsum
    have hrest : 0 ≤ (rest.map Debt.balance).sum :=
      List.sum_nonneg (by
        intro x hx
        obtain ⟨e, he, rfl⟩ := List.mem_map.1 hx
        exact hnn e (List.mem_cons_of_mem b he))
    have hb0 : b.balance = 0 := le_antisymm (by linarith [hnn b (List.mem_cons_self b rest)])
      (hnn b (List.mem_cons_self b rest))
    rcases List.mem_cons.1 hd with rfl | hmem
    · exact hb0
    · exact ih (fun x hx => hnn x (List.mem_cons_of_mem b hx)) (by linarith) d hmem

/-- Claim C8 (amended): `calculateDebtMetrics` is total (the JS divisions
cannot throw, they produce special values): on a zero total balance (with
non-negative balances) the average interest rate is `NaN`; on zero monthly
income the debt-to-income ratio is `NaN` when the minimum payments sum to
zero but `Infinity` — a non-crashing special value that is, however, not
NaN — when they are positive. -/
theorem claim_C8_metrics_guards (debts : List Debt) (monthlyIncome : ℚ) :
    ((∀ d ∈ debts, 0 ≤ d.balance) → (debts.map Debt.balance).sum = 0 →
      (calculateDebtMetrics debts monthlyIncome).averageInterestRate = JsNum.nan) ∧
    ((debts.map Debt.minimumPayment).sum = 0 →
      (calculateDebtMetrics debts 0).debtToIncomeRatio = JsNum.nan) ∧
    (0 < (debts.map Debt.minimumPayment).sum →
      (calculateDebtMetrics debts 0).debtToIncomeRatio = JsNum.posInf) := by
  refine ⟨?_, ?_, ?_⟩
  · intro hnn hsum
    have hw : (debts.map (fun d => d.interestRate * d.balance)).sum = 0 := by
      apply List.sum_eq_zero
      intro x hx
      obtain ⟨e, he, rfl⟩ := List.mem_map.1 hx
      rw [balances_zero_of_sum_zero debts hnn hsum e he, mul_zero]
    show jsDiv (debts.foldl (fun s d => jsAdd s (jsMul (.num d.interestRate) (.num d.balance)))
        (.num 0)) (debts.foldl (fun s d => jsAdd s (.num d.balance)) (.num 0)) = JsNum.nan
    rw [foldl_jsAdd_weight, foldl_jsAdd_balance, zero_add, zero_add, hw, hsum]
    simp [jsDiv]
  · intro hsum
    show jsMul (jsDiv (debts.foldl (fun s d => jsAdd s (.num d.minimumPayment)) (.num 0))
        (.num 0)) (.num 100) = JsNum.nan
    rw [foldl_jsAdd_minimum, zero_add, hsum]
    simp [jsDiv, jsMul]
  · intro hsum
    show jsMul (jsDiv (debts.foldl (fun s d => jsAdd s (.num d.minimumPayment)) (.num 0))
        (.num 0)) (.num 100) = JsNum.posInf
    rw [foldl_jsAdd_minimum, zero_add]
    rw [show jsDiv (JsNum.num ((debts.map Debt.minimumPayment).sum)) (JsNum.num 0) =
        JsNum.posInf by simp [jsDiv, hsum]]
    norm_num [jsMul]

/-- Counterexample to claim C8 as stated: a debt with minimum payment 100
and monthly income 0 makes the debt-to-income ratio `Infinity` — the code
does not crash, but it does not report NaN/undefined either. -/
theorem claim_C8_counterexample :
    (calculateDebtMetrics [mkDebt "d" 500 10 100] 0).debtToIncomeRatio = JsNum.posInf ∧
    JsNum.posInf ≠ JsNum.nan :=
  ⟨by decide, by decide⟩

/-- Copying allocates only fresh addresses: every pre-existing cell is
untouched, every returned address is at or above the old heap top. -/
theorem copyDebts_spec (addrs : List Nat) : ∀ h : Heap,
    (∀ a, a < h.recs.length → (copyDebts h addrs).1.recs.get? a = h.recs.get? a) ∧
    (∀ c ∈ (copyDebts h addrs).2, h.recs.length ≤ c) ∧
    h.recs.length ≤ (copyDebts h addrs).1.recs.length := by
  induction addrs with
  | nil =>
    intro h
    exact ⟨fun a _ => rfl, fun c hc => absurd hc (List.not_mem_nil c), le_rfl⟩
  | cons a rest ih =>
    intro h
    simp only [copyDebts, Heap.alloc]
    obtain ⟨ih1, ih2, ih3⟩ := ih ⟨h.recs ++ [h.read a]⟩
    refine ⟨?_, ?_, ?_⟩
    · intro b hb
      have hb' : b < (h.recs ++ [h.read a]).length := by
        rw [List.length_append]
        omega
      rw [ih1 b hb']
      exact List.get?_append hb
    · intro c hc
      rcases List.mem_cons.1 hc with rfl | hm
      · exact le_rfl
      · have h2 := ih2 c hm
        simp only [List.length_append, List.length_singleton] at h2
        omega
    · have h3 := ih3
      simp only [List.length_append, List.length_singleton] at h3
      omega

/-- One heap month writes only at the processed addresses: every cell
below a bound under all of them is untouched. -/
theorem processDebtsMonthH_frame (addrs : List Nat) :
    ∀ (h : Heap) (i : Nat) (extra : ℚ) (order : List String) (lo : Nat),
      (∀ c ∈ addrs, lo ≤ c) →
      ∀ a, a < lo →
        (processDebtsMonthH h addrs i extra order).1.recs.get? a = h.recs.get? a := by
  induction addrs with
  | nil => intro h i extra order lo _ a _; rfl
  | cons c rest ih =>
    intro h i extra order lo hlo a ha
    have hc : lo ≤ c := hlo c (List.mem_cons_self c rest)
    have hrest : ∀ x ∈ rest, lo ≤ x := fun x hx => hlo x (List.mem_cons_of_mem c hx)
    simp only [processDebtsMonthH]
    split
    · exact ih h (i+1) extra order lo hrest a ha
    · rw [ih _ (i+1) _ _ lo hrest a ha]
      show (h.recs.set c _).get? a = h.recs.get? a
      exact List.get?_set_ne _ _ (by omega)

/-- The heap loop writes only at the simulated addresses. -/
theorem simulateMonthsH_frame (fuel : Nat) :
    ∀ (h : Heap) (addrs : List Nat) (p tm : ℚ) (order : List String) (ti : ℚ) (m lo : Nat),
      (∀ c ∈ addrs, lo ≤ c) →
      ∀ a, a < lo →
        (simulateMonthsH fuel h addrs p tm order ti m).1.recs.get? a = h.recs.get? a := by
  induction fuel with
  | zero => intro h addrs p tm order ti m lo _ a _; rfl
  | succ n ih =>
    intro h addrs p tm order ti m lo hlo a ha
    simp only [simulateMonthsH]
    split
    · rw [ih _ addrs p tm _ _ (m+1) lo hlo a ha]
      exact processDebtsMonthH_frame addrs h 0 (p - tm) order lo hlo a ha
    · rfl

/-- The heap engine never writes below the caller's heap top: it simulates
only on the fresh copies. -/
theorem calculateDebtStrategyH_frame (h : Heap) (sortedAddrs : List Nat)
    (availablePayment : ℚ) (strategy : RepaymentStrategy) :
    ∀ a, a < h.recs.length →
      (calculateDebtStrategyH h sortedAddrs availablePayment strategy).2.recs.get? a =
        h.recs.get? a := by
  intro a ha
  obtain ⟨hpres, hge, hlen⟩ := copyDebts_spec sortedAddrs h
  simp only [calculateDebtStrategyH]
  split
  · exact hpres a ha
  · rw [simulateMonthsH_frame 600 (copyDebts h sortedAddrs).1 (copyDebts h sortedAddrs).2
      availablePayment _ [] 0 1 h.recs.length hge a ha]
    exact hpres a ha

/-- Claim C7: calling any of the three strategy functions leaves every
caller-owned debt record unchanged — whatever the heap held at an address
before the call, it holds afterwards; ordering sorts a copied address
list and the simulation mutates only freshly allocated copies.  (The
caller's array itself is a value in this model: `[...debts]` copies it
before the in-place sort, so it cannot change either.) -/
theorem claim_C7_no_mutation (h : Heap) (addrs : List Nat) (availablePayment : ℚ) :
    (∀ a, a < h.recs.length →
      (calculateSnowballStrategyH h addrs availablePayment).2.recs.get? a = h.recs.get? a) ∧
    (∀ a, a < h.recs.length →
      (calculateAvalancheStrategyH h addrs availablePayment).2.recs.get? a = h.recs.get? a) ∧
    (∀ a, a < h.recs.length →
      (calculateHybridStrategyH h addrs availablePayment).2.recs.get? a = h.recs.get? a) := by
  refine ⟨?_, ?_, ?_⟩
  · intro a ha
    exact calculateDebtStrategyH_frame h _ availablePayment .snowball a ha
  · intro a ha
    exact calculateDebtStrategyH_frame h _ availablePayment .avalanche a ha
  · intro a ha
    obtain ⟨hpres, _, hlen⟩ := copyDebts_spec addrs h
    show (calculateDebtStrategyH (copyDebts h addrs).1 _ availablePayment .hybrid).2.recs.get? a =
      h.recs.get? a
    rw [calculateDebtStrategyH_frame (copyDebts h addrs).1 _ availablePayment .hybrid a
      (lt_of_lt_of_le ha hlen)]
    exact hpres a ha

end DhanSaathi
